import Mathlib

/-!
A shallow embedding of `src/GPS/find_latent_representation.py` (gsMap).

The file under verification is the orchestration layer of the latent-representation
pipeline: the configuration record `FindLatentRepresentationsConfig`, the class
`Latent_Representation_Finder` (constructor preprocessing, `Run_GNN_VAE`, `Run_PCA`),
and the driver `run_find_latent_representation` (annotation filtering, the
whole-dataset GVAE/PCA section, and the hierarchical per-annotation-group loop).

External collaborators (scanpy preprocessing/PCA/UMAP, pandas, the GNN-VAE trainer
in `GPS/GNN_VAE`) are not part of the excerpt; they are abstracted as parameters
(an arbitrary per-group embedding function, an arbitrary PCA result matrix, an
`Except`-valued training outcome) or, where a claim needs their behaviour and the
spec pins it down, modelled from the spec with an explicit doc comment.

Rows of the annotated dataset are modelled by `Obs` (an obs name plus an optional
categorical annotation); a dataset is a list of rows in its stored row order, which
is the join key for all attached embeddings.
-/

namespace GsMap

/-- One cell/spot row of the annotated dataset: its obs name (modelled as a `Nat`
identifier; `adata.obs_names` entries) and its optional categorical annotation value
(`adata.obs[args.annotation]`; `none` models a null entry). -/
structure Obs where
  name : Nat
  annot : Option Nat
deriving DecidableEq, Repr

/-- A dataset is its list of rows, in stored row order. -/
abbrev AData := List Obs

/-! ## Annotation filtering (lines 142-146)

```python
adata = adata[~pd.isnull(adata.obs[args.annotation]), :]
num = adata.obs[args.annotation].value_counts()
adata = adata[adata.obs[args.annotation].isin(num[num >= 30].index.to_list()),]
```
First the null-annotated cells are removed; then `value_counts` is taken over the
null-filtered data and only cells whose annotation group has at least 30 members
survive. -/

/-- Embeds lines 142-146: drop rows with a null annotation, then keep only rows whose
annotation value occurs at least 30 times among the null-filtered rows. -/
def filterByAnnot (adata : AData) : AData :=
  let nonNull := adata.filter (fun r => r.annot.isSome)
  nonNull.filter (fun r => 30 ≤ nonNull.countP (fun s => decide (s.annot = r.annot)))

/-! ## Preprocessing in `Latent_Representation_Finder.__init__` (lines 90-103)

```python
if self.Params.type == 'count' or self.Params.type == 'counts':
    self.adata.X = self.adata.layers[self.Params.type]
    sc.pp.highly_variable_genes(self.adata, flavor="seurat_v3", n_top_genes=self.Params.feat_cell)
    sc.pp.normalize_total(self.adata, target_sum=1e4)
    sc.pp.log1p(self.adata)
    sc.pp.scale(self.adata)
else:
    self.adata.X = self.adata.layers[self.Params.type]
    sc.pp.highly_variable_genes(self.adata, n_top_genes=self.Params.feat_cell)
```
Both branches start by indexing `adata.layers` with the configured `type`, which may
be `None`. -/

/-- The expression layers of a dataset read from an h5ad file: a finite map from
string keys to layer identifiers. h5ad serialises layer names as strings, so every
key is a string. -/
abbrev Layers := List (String × Nat)

/-- Lookup `adata.layers[k]` where `k` is the config's optional `type` tag: a mapping lookup
that yields `none` (Python: raises `KeyError`) when no key matches. A `None` tag
matches no string key. -/
def layersGetItem (layers : Layers) (k : Option String) : Option Nat :=
  match k with
  | none => none
  | some s => (layers.find? (fun kv => decide (kv.1 = s))).map Prod.snd

/-- Error raised by the constructor's preprocessing. -/
inductive PreprocError where
  | keyError : Option String → PreprocError
deriving DecidableEq, Repr

/-- Which preprocessing policy ran: the counts policy (seurat_v3 highly-variable
genes, normalize_total, log1p, scale) or the generic policy (default
highly-variable-gene selection only). -/
inductive Policy where
  | counts
  | generic
deriving DecidableEq, Repr

/-- The observable outcome of the constructor's preprocessing: which layer was
assigned to `X`, which policy ran, and the `n_top_genes` used. -/
structure PreprocResult where
  layerUsed : Nat
  policy : Policy
  nTopGenes : Nat
deriving DecidableEq, Repr

/-- Embeds `Latent_Representation_Finder.__init__` (lines 90-103). Both the counts
branch and the generic branch begin with
`self.adata.X = self.adata.layers[self.Params.type]`, so both fail with a `KeyError`
when the configured `type` names no layer — in particular whenever `type` is `None`. -/
def finderInit (layers : Layers) (ty : Option String) (feat_cell : Nat) :
    Except PreprocError PreprocResult :=
  if ty = some "count" ∨ ty = some "counts" then
    match layersGetItem layers ty with
    | none => .error (.keyError ty)
    | some x => .ok ⟨x, .counts, feat_cell⟩
  else
    match layersGetItem layers ty with
    | none => .error (.keyError ty)
    | some x => .ok ⟨x, .generic, feat_cell⟩

/-! ## `Run_PCA` (lines 127-129)

```python
def Run_PCA(self):
    sc.tl.pca(self.adata)
    return self.adata.obsm['X_pca'][:, 0:self.Params.n_comps]
```
The external PCA routine (`sc.tl.pca` with default arguments) fills `obsm['X_pca']`;
its result is a parameter of the embedding. The method returns the numpy column
slice `[:, 0:n_comps]`, which truncates at the available width. -/

/-- A dense numeric matrix: a list of rows. -/
abbrev Mat := List (List Int)

/-- The column count of a matrix (width of its first row; 0 when empty). -/
def ncols (m : Mat) : Nat :=
  match m with
  | [] => 0
  | row :: _ => row.length

/-- Slice `m[:, 0:k]`: the numpy column slice keeps the first `k` columns of every row,
truncating silently when fewer than `k` columns exist. -/
def sliceCols (m : Mat) (k : Nat) : Mat :=
  m.map (fun row => row.take k)

/-- Embeds `Run_PCA` (lines 127-129): given the matrix `X_pca` produced by the
external PCA routine, return `X_pca[:, 0:n_comps]`. -/
def Run_PCA (X_pca : Mat) (n_comps : Nat) : Mat :=
  sliceCols X_pca n_comps

/-! ## The whole-dataset GVAE/PCA section (lines 154-157)

```python
latent_rep = Latent_Representation_Finder(adata, args)
latent_GVAE = latent_rep.Run_GNN_VAE(label)
latent_PCA = latent_rep.Run_PCA()
```
The two calls run strictly sequentially inside no `try` block: an exception raised
by `Run_GNN_VAE` propagates out of `run_find_latent_representation` before
`Run_PCA` is reached. The two external computations are parameters that may fail. -/

/-- Failure taxonomy of the training/PCA collaborators (spec section 7). -/
inductive RunError where
  | numericInstability
  | configError
  | dataError
  | ioError
deriving DecidableEq, Repr

/-- Outcome of the whole-dataset latent section: which latents were actually
computed, and the propagated exception when one was raised. -/
structure MainLatents where
  latent_GVAE : Option Mat
  latent_PCA : Option Mat
  failure : Option RunError
deriving DecidableEq, Repr

/-- Embeds lines 156-157: `Run_GNN_VAE` is evaluated first; if it raises, the
exception propagates at once and `Run_PCA` is never invoked; otherwise `Run_PCA`
is evaluated. -/
def mainLatentSection (gvae pca : Except RunError Mat) : MainLatents :=
  match gvae with
  | .error e => ⟨none, none, some e⟩
  | .ok g =>
    match pca with
    | .error e => ⟨some g, none, some e⟩
    | .ok p => ⟨some g, some p, none⟩

/-! ## File-system side effects (lines 134-135 and 198-199)

```python
args.output_dir = Path(args.output_hdf5_path).parent
args.output_dir.mkdir(parents=True, exist_ok=True, mode=0o755)
...
adata.write(args.output_hdf5_path)
```
The only file-system operations of `run_find_latent_representation` are the upfront
creation of the output directory and, at the very end, one direct `adata.write` to
the configured output path. No temporary file is created and nothing is renamed. -/

/-- A file-system operation performed by the run. `mkdirParent p` creates the parent
directory tree of `p`; `writeH5ad p` writes the dataset to `p`; `renameFile a b`
would atomically move `a` to `b` (never emitted by this code). -/
inductive FileOp where
  | mkdirParent : String → FileOp
  | writeH5ad : String → FileOp
  | renameFile : String → String → FileOp
deriving DecidableEq, Repr

/-- Embeds the file-operation trace of `run_find_latent_representation`: the output
directory is created first (line 135); when the run reaches the end without an
exception (`succeeded = true`) the dataset is written directly to
`output_hdf5_path` (line 199); an aborted run stops before the write. -/
def runFileOps (output_hdf5_path : String) (succeeded : Bool) : List FileOp :=
  if succeeded then
    [.mkdirParent output_hdf5_path, .writeH5ad output_hdf5_path]
  else
    [.mkdirParent output_hdf5_path]

/-! ## The hierarchical loop (lines 170-197)

```python
for ct in adata.obs[args.annotation].unique():
    adata_part = adata[adata.obs[args.annotation] == ct, :]
    latent_rep = Latent_Representation_Finder(adata_part, args)
    latent_PCA_part = pd.DataFrame(latent_rep.Run_PCA())
    if adata_part.shape[0] <= args.n_comps:
        latent_GVAE_part = latent_PCA_part
    else:
        latent_GVAE_part = pd.DataFrame(latent_rep.Run_GNN_VAE(label=None, verbose=ct))
    latent_GVAE_part.index = adata_part.obs_names
    latent_PCA_part.index = adata_part.obs_names
    GVAE_all = pd.concat((GVAE_all, latent_GVAE_part), axis=0)
    PCA_all = pd.concat((PCA_all, latent_PCA_part), axis=0)
    args.feat_cell = num_features
    adata.obsm["latent_GVAE_hierarchy"] = np.array(GVAE_all.loc[adata.obs_names,])
    adata.obsm["latent_PCA_hierarchy"] = np.array(PCA_all.loc[adata.obs_names,])
```
-/

/-- First-occurrence deduplication with an accumulator of already-seen values. -/
def uniqueFirstAux (seen : List Nat) : List Nat → List Nat
  | [] => []
  | a :: t => if a ∈ seen then uniqueFirstAux seen t else a :: uniqueFirstAux (a :: seen) t

/-- Embeds `pandas.Series.unique()`: the distinct values of a sequence, first occurrences
kept (embeds `adata.obs[args.annotation].unique()`, line 175). -/
def uniqueFirst (l : List Nat) : List Nat :=
  uniqueFirstAux [] l

/-- The annotation values of the dataset's rows, in row order, nulls skipped (after
the filtering of lines 142-146 every retained row's annotation is non-null). -/
def annotValues (adata : AData) : List Nat :=
  adata.filterMap (fun r => r.annot)

/-- The row subset of one annotation group:
`adata[adata.obs[args.annotation] == ct, :]` (line 176). -/
def groupSubset (adata : AData) (a : Nat) : AData :=
  adata.filter (fun r => decide (r.annot = some a))

/-- The annotation group a given row belongs to: the subset of rows sharing its
annotation value. -/
def groupOf (adata : AData) (r : Obs) : AData :=
  adata.filter (fun s => decide (s.annot = r.annot))

/-- The value computed for row `r` within its own group by the per-group embedding
`f`: the row of `f (groupOf adata r)` at `r`'s position inside its group (positions
in the per-group frame align with the subset's row order, lines 188-189). -/
def valueInGroup {V : Type} (f : AData → List V) (adata : AData) (r : Obs) : Option V :=
  (f (groupOf adata r))[(groupOf adata r).findIdx (fun s => decide (s.name = r.name))]?

/-- Embeds the hierarchical accumulation (lines 172-192) for one embedding kind:
iterate over the distinct annotation values (line 175); for each, compute the
per-group embedding `f` on the subset, index its rows by the subset's obs names
(lines 188-189), and concatenate (lines 191-192). The result is the accumulated
name-indexed frame (`GVAE_all` or `PCA_all` after the loop). -/
def hierTable {V : Type} (adata : AData) (f : AData → List V) : List (Nat × V) :=
  (uniqueFirst (annotValues adata)).flatMap
    (fun a => ((groupSubset adata a).map (fun r => r.name)).zip (f (groupSubset adata a)))

/-- Lookup `frame.loc[names]` over a name-indexed frame: for each requested obs name, the
row stored under that name (`none` models the KeyError raised for a missing label).
Embeds `GVAE_all.loc[adata.obs_names,]` (lines 196-197). -/
def locReindex {V : Type} (table : List (Nat × V)) (names : List Nat) : List (Option V) :=
  names.map (fun n => (table.find? (fun kv => decide (kv.1 = n))).map Prod.snd)

/-- Outcome of one iteration body, lines 182-186: the PCA part, the GVAE part, and
the `Run_GNN_VAE` call made for the group (`some l` when the call happened with
label argument `l`; `none` when GVAE was skipped). -/
structure GroupLatents (V : Type) where
  latent_PCA_part : List V
  latent_GVAE_part : List V
  gvaeCall : Option (Option (List Nat))

/-- Embeds lines 182-186: `Run_PCA` always runs; when the group has at most
`n_comps` rows the GVAE part is the PCA part itself and `Run_GNN_VAE` is not
invoked; otherwise `Run_GNN_VAE` is invoked with the literal argument
`label=None`. `pcaOf` and `gvaeOf` abstract the two computations of the group's
finder. -/
def processGroup {V : Type} (part : AData) (n_comps : Nat)
    (pcaOf : AData → List V) (gvaeOf : AData → Option (List Nat) → List V) :
    GroupLatents V :=
  let latent_PCA_part := pcaOf part
  if part.length ≤ n_comps then
    ⟨latent_PCA_part, latent_PCA_part, none⟩
  else
    ⟨latent_PCA_part, gvaeOf part none, some none⟩

/-! ## The `feat_cell` configuration field across the run (lines 117-118, 133, 194)

`Run_GNN_VAE` ends its feature preparation with
```python
self.Params.n_nodes = node_X.shape[0]
self.Params.feat_cell = node_X.shape[1]
```
and `self.Params` is the very `args` record of the driver, so the discovered node
feature width is written into the shared configuration. The driver saves the
original value up front (`num_features = args.feat_cell`, line 133) and restores it
at the END of each group iteration (`args.feat_cell = num_features`, line 194). -/

/-- The node-feature width discovered by `Run_GNN_VAE` (lines 111-118): `n_comps`
columns when `input_pca` is set (line 114); otherwise the width of the
highly-variable-gene submatrix. Modelled from the spec for the non-PCA branch:
FeaturePreprocessor output width is the configured `feat_cell` (spec 4.2), so the
highly-variable submatrix built with `n_top_genes = feat_cell` has `feat_cell`
columns. -/
def nodeWidth (input_pca : Bool) (n_comps feat_cell : Nat) : Nat :=
  if input_pca then n_comps else feat_cell

/-- What one hierarchical iteration observed and left behind: the group's row
count, the `Params.feat_cell` value in force when the group's
`Latent_Representation_Finder` was constructed (line 180), the label argument of
the group's `Run_GNN_VAE` call when one happened (lines 183-186), the field's value
just before the reset, and its value at the end of the iteration (line 194). -/
structure GroupTraceEntry where
  groupSize : Nat
  constructedFeatCell : Nat
  gvaeLabelArg : Option (Option (List Nat))
  featCellBeforeReset : Nat
  featCellAfterReset : Nat
deriving DecidableEq, Repr

/-- The trace entry produced by one iteration that starts with `feat_cell = c` on a
group of `g` rows. -/
def mkEntry (num_features n_comps : Nat) (input_pca : Bool) (c g : Nat) :
    GroupTraceEntry :=
  ⟨g, c,
    (if g ≤ n_comps then none else some none),
    (if g ≤ n_comps then c else nodeWidth input_pca n_comps c),
    num_features⟩

/-- One iteration of the hierarchical loop as a transition on
(current `feat_cell`, trace so far): the finder is constructed with the current
value (line 180); `Run_GNN_VAE`, when the group is large enough, overwrites
`feat_cell` with the discovered node width (lines 117-118, 186); the iteration ends
by restoring the saved original (line 194). -/
def hierGroupStep (num_features n_comps : Nat) (input_pca : Bool)
    (st : Nat × List GroupTraceEntry) (g : Nat) : Nat × List GroupTraceEntry :=
  (num_features, st.2 ++ [mkEntry num_features n_comps input_pca st.1 g])

/-- The configuration-effect trace of one full hierarchical run. -/
structure HierRun where
  num_features : Nat
  wholeLabelArg : Option (List Nat)
  featCellAfterWhole : Nat
  groups : List GroupTraceEntry
  finalFeatCell : Nat

/-- Embeds the `feat_cell` life cycle and `Run_GNN_VAE` call pattern of
`run_find_latent_representation` in hierarchical mode: save the original value
(line 133); the whole-dataset `Run_GNN_VAE` call receives the label vector
(line 156) and leaves `feat_cell` at the discovered node width (lines 117-118);
then the per-group loop runs over the group row counts `groupSizes` in group
order. -/
def runHierModel (feat_cell0 n_comps : Nat) (input_pca : Bool)
    (label : Option (List Nat)) (groupSizes : List Nat) : HierRun :=
  let num_features := feat_cell0
  let afterWhole := nodeWidth input_pca n_comps feat_cell0
  let res := groupSizes.foldl (hierGroupStep num_features n_comps input_pca)
      (afterWhole, [])
  ⟨num_features, label, afterWhole, res.2, res.1⟩

/-- Modelled from the spec: the auxiliary classification term of the GNN-VAE loss
(`GPS/GNN_VAE/train.py` and the model module are not in the excerpt). Spec 4.3: the
loss adds a `label_w`-scaled classification term with zero contribution when no
labels are supplied. -/
def labelLossContribution (label_w : Int) (label : Option (List Nat))
    (clsLoss : Int) : Int :=
  match label with
  | none => 0
  | some _ => label_w * clsLoss

/-- Tests whether a file operation is a rename. -/
def isRenameOp : FileOp → Bool
  | .renameFile _ _ => true
  | _ => false

/-- The trace entries the group loop produces when it starts with `feat_cell = c`:
the head entry is built from `c`, every later one from the restored
`num_features`. -/
def hierEntries (num_features n_comps : Nat) (input_pca : Bool) :
    Nat → List Nat → List GroupTraceEntry
  | _, [] => []
  | c, g :: rest =>
      mkEntry num_features n_comps input_pca c g ::
        hierEntries num_features n_comps input_pca num_features rest

/-! # Theorems -/

/-- Counting rows carrying a fixed non-null annotation value is unaffected by first
removing the null-annotated rows. -/
theorem countP_nonNull_eq (adata : AData) (r : Obs) (h : r.annot.isSome) :
    (adata.filter (fun s => s.annot.isSome)).countP (fun s => decide (s.annot = r.annot)) =
      adata.countP (fun s => decide (s.annot = r.annot)) := by
  rw [List.countP_filter]
  apply List.countP_congr
  intro s _
  by_cases hs : s.annot = r.annot
  · simp [hs, h]
  · simp [hs]

/-- C5: when an annotation column is given, cells whose annotation is null and all
cells of annotation groups with fewer than 30 members are filtered out before any
training: a row survives lines 142-146 iff it is a dataset row whose annotation is
non-null and occurs at least 30 times; undersized groups are simply dropped by a
total filtering step, never turned into an error. -/
theorem C5_annot_filter (adata : AData) (r : Obs) :
    r ∈ filterByAnnot adata ↔
      r ∈ adata ∧ r.annot.isSome ∧
        30 ≤ adata.countP (fun s => decide (s.annot = r.annot)) := by
  simp only [filterByAnnot, List.mem_filter, decide_eq_true_eq]
  constructor
  · rintro ⟨⟨hmem, hsome⟩, hcount⟩
    refine ⟨hmem, hsome, ?_⟩
    rwa [countP_nonNull_eq adata r hsome] at hcount
  · rintro ⟨hmem, hsome, hcount⟩
    exact ⟨⟨hmem, hsome⟩, by rwa [countP_nonNull_eq adata r hsome]⟩

/-- C5 witness: a dataset of 30 identically annotated rows together with one
null-annotated row and one row in a singleton group keeps exactly the 30-strong
group. -/
theorem C5_annot_filter_witness :
    (⟨0, some 7⟩ : Obs) ∈
        filterByAnnot (⟨40, none⟩ :: ⟨41, some 9⟩ :: List.replicate 30 ⟨0, some 7⟩) ∧
      (⟨41, some 9⟩ : Obs) ∉
        filterByAnnot (⟨40, none⟩ :: ⟨41, some 9⟩ :: List.replicate 30 ⟨0, some 7⟩) := by
  constructor
  · exact (C5_annot_filter _ _).mpr ⟨by decide, by decide, by decide⟩
  · intro hmem
    have h := (C5_annot_filter (⟨40, none⟩ :: ⟨41, some 9⟩ :: List.replicate 30 ⟨0, some 7⟩)
        ⟨41, some 9⟩).mp hmem
    revert h
    decide

/-- C8: the claim says the `type` option is optional and that, unset, the generic
preprocessing policy runs to completion; but the generic branch (line 102) also
evaluates `adata.layers[self.Params.type]`, so with `type = None` it looks up the
key `None` among string layer keys and raises a `KeyError` for every dataset. The
constructor fails for every input when `type` is unset (code_bug evidence). -/
theorem C8_type_none_key_error (layers : Layers) (feat_cell : Nat) :
    finderInit layers none feat_cell = .error (.keyError none) := by
  simp [finderInit, layersGetItem]

/-- C4 counterexample: with the default configuration `n_comps = 300` and an
external PCA result of 50 columns (the routine's default component count), the
matrix `Run_PCA` returns has 50 columns, not 300: the slice `[:, 0:n_comps]`
truncates at the available width instead of guaranteeing exactly `n_comps`
columns. -/
theorem C4_counterexample :
    ¬ ncols (Run_PCA [List.replicate 50 1] 300) = 300 := by decide

/-- C4 amended: `Run_PCA` returns the first `n_comps` columns of whatever matrix
the external PCA routine produced, so its width is the minimum of `n_comps` and
the produced width — exactly `n_comps` only when at least `n_comps` components
were produced (as in the end-to-end scenario, where 50 available components cover
`n_comps = 10`). -/
theorem C4_Run_PCA_ncols (X_pca : Mat) (n_comps : Nat) :
    ncols (Run_PCA X_pca n_comps) = min n_comps (ncols X_pca) := by
  cases X_pca with
  | nil => simp [Run_PCA, sliceCols, ncols]
  | cons row rest => simp [Run_PCA, sliceCols, ncols]

/-- C3 counterexample: a run whose GNN-VAE path fails (here with a numeric
instability) while the external PCA computation itself would succeed ends with no
PCA latent computed — the exception propagates before `Run_PCA` is invoked, so the
two paths do not have independent failure semantics. -/
theorem C3_counterexample :
    (mainLatentSection (.error .numericInstability) (.ok [[0]])).latent_PCA = none :=
  rfl

/-- C3 amended: lines 156-157 run strictly sequentially with no exception handler:
when the GNN-VAE path fails the run aborts with that error and the PCA latent is
not computed; the PCA latent is computed exactly in the runs whose GVAE path
succeeded (and then independently of the GVAE result's value). -/
theorem C3_sequential_failure (gvae pca : Except RunError Mat) (e : RunError)
    (h : gvae = .error e) :
    (mainLatentSection gvae pca).latent_PCA = none ∧
      (mainLatentSection gvae pca).failure = some e ∧
      ∀ g p, (mainLatentSection (.ok g) (.ok p)).latent_PCA = some p := by
  subst h
  exact ⟨rfl, rfl, fun g p => rfl⟩

/-- C3 witness: the amended statement at a concrete failing GVAE outcome. -/
theorem C3_sequential_failure_witness :
    (mainLatentSection (.error .dataError) (.ok [[1]])).latent_PCA = none ∧
      (mainLatentSection (.error .dataError) (.ok [[1]])).failure = some .dataError ∧
      ∀ g p, (mainLatentSection (.ok g) (.ok p)).latent_PCA = some p :=
  C3_sequential_failure (.error .dataError) (.ok [[1]]) .dataError rfl

/-- C7 counterexample: a successful run with output path "out.h5ad" performs
exactly the directory creation and one write DIRECTLY to the final configured
path; its operation trace contains no rename, so the output write is not of the
temp-then-rename form the claim asserts. -/
theorem C7_counterexample :
    runFileOps "out.h5ad" true =
        [.mkdirParent "out.h5ad", .writeH5ad "out.h5ad"] ∧
      (runFileOps "out.h5ad" true).any isRenameOp = false :=
  ⟨rfl, rfl⟩

/-- C7 amended: no run — aborted or successful — ever issues a rename; a write
occurs exactly in successful runs and only ever targets the configured output path
directly. A run aborting before the final write leaves the output path untouched,
but the single direct write itself has no temp-and-rename protection. -/
theorem C7_direct_write (p : String) (s : Bool) :
    (runFileOps p s).any isRenameOp = false ∧
      (FileOp.writeH5ad p ∈ runFileOps p s ↔ s = true) ∧
      ∀ q, FileOp.writeH5ad q ∈ runFileOps p s → q = p := by
  cases s <;> simp [runFileOps, isRenameOp]

/-- C7 amended-claim witness: the aborted-run case at a concrete path. -/
theorem C7_direct_write_witness :
    (runFileOps "res.h5ad" false).any isRenameOp = false ∧
      (FileOp.writeH5ad "res.h5ad" ∈ runFileOps "res.h5ad" false ↔ false = true) ∧
      ∀ q, FileOp.writeH5ad q ∈ runFileOps "res.h5ad" false → q = "res.h5ad" :=
  C7_direct_write "res.h5ad" false

/-- C2: in the hierarchical loop a group whose row count is at most `n_comps` gets
a GVAE part that is its PCA part itself (lines 183-184) — equal values, not merely
equal shape — and `Run_GNN_VAE` is not invoked for that group. -/
theorem C2_small_group_substitution {V : Type} (part : AData) (n_comps : Nat)
    (pcaOf : AData → List V) (gvaeOf : AData → Option (List Nat) → List V)
    (h : part.length ≤ n_comps) :
    (processGroup part n_comps pcaOf gvaeOf).latent_GVAE_part =
        (processGroup part n_comps pcaOf gvaeOf).latent_PCA_part ∧
      (processGroup part n_comps pcaOf gvaeOf).gvaeCall = none := by
  simp [processGroup, h]

/-- C2 witness: a one-row group with `n_comps = 10` and distinct PCA/GVAE
collaborators. -/
theorem C2_small_group_substitution_witness :
    (processGroup [⟨0, some 1⟩] 10 (fun l => l.map (fun r => r.name))
          (fun l _ => l.map (fun r => r.name + 100))).latent_GVAE_part =
        (processGroup [⟨0, some 1⟩] 10 (fun l => l.map (fun r => r.name))
          (fun l _ => l.map (fun r => r.name + 100))).latent_PCA_part ∧
      (processGroup [⟨0, some 1⟩] 10 (fun l => l.map (fun r => r.name))
          (fun l _ => l.map (fun r => r.name + 100))).gvaeCall = none :=
  C2_small_group_substitution _ _ _ _ (by decide)

/-- The group loop's fold is the accumulated entry list, with `feat_cell` left at
the saved original after any non-empty loop. -/
theorem hierFold_eq (F n : Nat) (I : Bool) (sizes : List Nat) :
    ∀ (c : Nat) (acc : List GroupTraceEntry),
      sizes.foldl (hierGroupStep F n I) (c, acc) =
        ((if sizes.isEmpty then c else F), acc ++ hierEntries F n I c sizes) := by
  induction sizes with
  | nil => intro c acc; simp [hierEntries]
  | cons g rest ih =>
    intro c acc
    simp only [List.foldl_cons, hierGroupStep, hierEntries]
    rw [ih F (acc ++ [mkEntry F n I c g])]
    simp

/-- The entry at index `i` of the accumulated trace: built from the incoming
`feat_cell` for the head group, from the restored original for every later one. -/
theorem hierEntries_get (F n : Nat) (I : Bool) (sizes : List Nat) :
    ∀ (c i g : Nat), sizes[i]? = some g →
      (hierEntries F n I c sizes)[i]? =
        some (mkEntry F n I (if i = 0 then c else F) g) := by
  induction sizes with
  | nil => intro c i g h; simp at h
  | cons s rest ih =>
    intro c i g h
    cases i with
    | zero =>
      simp only [List.getElem?_cons_zero, Option.some.injEq] at h
      subst h
      simp [hierEntries]
    | succ j =>
      rw [List.getElem?_cons_succ] at h
      simp only [hierEntries, List.getElem?_cons_succ]
      rw [ih F j g h]
      simp

/-- Every accumulated entry ends its iteration with `feat_cell` restored to the
saved original, and its `Run_GNN_VAE` call, when one happened, passed
`label=None`. -/
theorem hierEntries_mem (F n : Nat) (I : Bool) (sizes : List Nat) :
    ∀ (c : Nat) (e : GroupTraceEntry), e ∈ hierEntries F n I c sizes →
      e.featCellAfterReset = F ∧
        (e.gvaeLabelArg = none ∨ e.gvaeLabelArg = some none) := by
  induction sizes with
  | nil => intro c e h; simp [hierEntries] at h
  | cons s rest ih =>
    intro c e h
    simp only [hierEntries, List.mem_cons] at h
    rcases h with h | h
    · subst h
      refine ⟨rfl, ?_⟩
      by_cases hs : s ≤ n <;> simp [mkEntry, hs]
    · exact ih F e h

/-- The group trace of the run model is the accumulated entry list seeded with the
`feat_cell` value the whole-dataset `Run_GNN_VAE` left behind. -/
theorem runHierModel_groups (feat_cell0 n_comps : Nat) (input_pca : Bool)
    (label : Option (List Nat)) (groupSizes : List Nat) :
    (runHierModel feat_cell0 n_comps input_pca label groupSizes).groups =
      hierEntries feat_cell0 n_comps input_pca
        (nodeWidth input_pca n_comps feat_cell0) groupSizes := by
  simp [runHierModel, hierFold_eq]

/-- C6: in hierarchical mode the `feat_cell` field is restored to its saved
original value at the end of every group iteration (line 194), so the finder of
every group after the first — index `i ≥ 1` — is constructed, and its
preprocessing run, with the originally configured `feat_cell`. -/
theorem C6_feat_cell_reset (feat_cell0 n_comps : Nat) (input_pca : Bool)
    (label : Option (List Nat)) (groupSizes : List Nat) (i g : Nat)
    (h1 : 1 ≤ i) (hg : groupSizes[i]? = some g) :
    ((runHierModel feat_cell0 n_comps input_pca label groupSizes).groups[i]?).map
        (fun e => e.constructedFeatCell) = some feat_cell0 ∧
      ∀ e ∈ (runHierModel feat_cell0 n_comps input_pca label groupSizes).groups,
        e.featCellAfterReset = feat_cell0 := by
  constructor
  · rw [runHierModel_groups, hierEntries_get _ _ _ groupSizes _ i g hg]
    have hi0 : ¬ i = 0 := by omega
    simp [mkEntry, hi0]
  · intro e he
    rw [runHierModel_groups] at he
    exact (hierEntries_mem _ _ _ groupSizes _ e he).1

/-- C6 witness: configured `feat_cell = 3000`, `n_comps = 300`, PCA reduction on,
two groups of 400 and 500 rows; the second group's finder sees 3000 again. -/
theorem C6_feat_cell_reset_witness :
    ((runHierModel 3000 300 true none [400, 500]).groups[1]?).map
        (fun e => e.constructedFeatCell) = some 3000 ∧
      ∀ e ∈ (runHierModel 3000 300 true none [400, 500]).groups,
        e.featCellAfterReset = 3000 :=
  C6_feat_cell_reset 3000 300 true none [400, 500] 1 500 (by decide) (by decide)

/-- C10: the finder of the FIRST group is constructed with `feat_cell` equal to
the value the whole-dataset `Run_GNN_VAE` left behind (the node feature width,
`n_comps` whenever `input_pca` is set), and the configured original is restored
only at the end of the iteration, after that finder was built and run; whenever
`input_pca` is set and `n_comps` differs from the configured value, the first
group really is constructed with a value different from the original. -/
theorem C10_first_group_feat_cell (feat_cell0 n_comps : Nat) (input_pca : Bool)
    (label : Option (List Nat)) (groupSizes : List Nat) (g : Nat)
    (hg : groupSizes[0]? = some g) :
    ∃ e, (runHierModel feat_cell0 n_comps input_pca label groupSizes).groups[0]? =
          some e ∧
      e.constructedFeatCell =
        (runHierModel feat_cell0 n_comps input_pca label groupSizes).featCellAfterWhole ∧
      (input_pca = true → e.constructedFeatCell = n_comps) ∧
      e.featCellAfterReset = feat_cell0 ∧
      (input_pca = true → ¬ n_comps = feat_cell0 →
        ¬ e.constructedFeatCell = feat_cell0) := by
  refine ⟨mkEntry feat_cell0 n_comps input_pca
      (nodeWidth input_pca n_comps feat_cell0) g, ?_, ?_, ?_, ?_, ?_⟩
  · rw [runHierModel_groups, hierEntries_get _ _ _ groupSizes _ 0 g hg]
    simp
  · rfl
  · intro h
    simp [mkEntry, nodeWidth, h]
  · rfl
  · intro h hne
    simp [mkEntry, nodeWidth, h]
    exact hne

/-- C10 witness: configured `feat_cell = 3000`, `n_comps = 300`, PCA reduction on,
a single group of 400 rows: its finder is constructed with 300, not 3000. -/
theorem C10_first_group_feat_cell_witness :
    ∃ e, (runHierModel 3000 300 true none [400]).groups[0]? = some e ∧
      e.constructedFeatCell = (runHierModel 3000 300 true none [400]).featCellAfterWhole ∧
      (true = true → e.constructedFeatCell = 300) ∧
      e.featCellAfterReset = 3000 ∧
      (true = true → ¬ (300 : Nat) = 3000 → ¬ e.constructedFeatCell = 3000) :=
  C10_first_group_feat_cell 3000 300 true none [400] 400 (by decide)

/-- C9: every per-group `Run_GNN_VAE` call of the hierarchical loop passes the
literal `label=None` (line 186) — so the spec-modelled auxiliary classification
loss term contributes zero for every group even when an annotation column is
present — while the whole-dataset call (line 156) receives the label vector. -/
theorem C9_hier_labels (feat_cell0 n_comps : Nat) (input_pca : Bool)
    (label : Option (List Nat)) (groupSizes : List Nat) (label_w clsLoss : Int) :
    (runHierModel feat_cell0 n_comps input_pca label groupSizes).wholeLabelArg =
        label ∧
      ∀ e ∈ (runHierModel feat_cell0 n_comps input_pca label groupSizes).groups,
        ∀ l, e.gvaeLabelArg = some l →
          l = none ∧ labelLossContribution label_w l clsLoss = 0 := by
  refine ⟨rfl, ?_⟩
  intro e he l hl
  rw [runHierModel_groups] at he
  rcases (hierEntries_mem _ _ _ groupSizes _ e he).2 with h | h
  · rw [h] at hl
    cases hl
  · rw [h] at hl
    injection hl with hl
    subst hl
    exact ⟨rfl, rfl⟩

/-- C9 witness: a labelled run (two classes) over groups of 400 and 20 rows. -/
theorem C9_hier_labels_witness :
    (runHierModel 3000 300 true (some [0, 1]) [400, 20]).wholeLabelArg =
        some [0, 1] ∧
      ∀ e ∈ (runHierModel 3000 300 true (some [0, 1]) [400, 20]).groups,
        ∀ l, e.gvaeLabelArg = some l →
          l = none ∧ labelLossContribution 1 l 5 = 0 :=
  C9_hier_labels 3000 300 true (some [0, 1]) [400, 20] 1 5

/-- Membership in the first-occurrence deduplication with accumulator. -/
theorem mem_uniqueFirstAux (b : Nat) (l : List Nat) :
    ∀ seen : List Nat, b ∈ uniqueFirstAux seen l ↔ b ∈ l ∧ b ∉ seen := by
  induction l with
  | nil => intro seen; simp [uniqueFirstAux]
  | cons a t ih =>
    intro seen
    by_cases ha : a ∈ seen
    · rw [uniqueFirstAux, if_pos ha, ih]
      simp only [List.mem_cons]
      constructor
      · exact fun h => ⟨Or.inr h.1, h.2⟩
      · rintro ⟨rfl | h1, h2⟩
        · exact absurd ha h2
        · exact ⟨h1, h2⟩
    · rw [uniqueFirstAux, if_neg ha]
      simp only [List.mem_cons, ih]
      constructor
      · rintro (rfl | ⟨h1, h2⟩)
        · exact ⟨Or.inl rfl, ha⟩
        · exact ⟨Or.inr h1, fun hb => h2 (Or.inr hb)⟩
      · rintro ⟨rfl | h1, h2⟩
        · exact Or.inl rfl
        · by_cases hba : b = a
          · exact Or.inl hba
          · refine Or.inr ⟨h1, fun hb => ?_⟩
            rcases hb with h | h
            · exact hba h
            · exact h2 h

/-- Membership in `uniqueFirst`: exactly the values of the input sequence. -/
theorem mem_uniqueFirst (b : Nat) (l : List Nat) : b ∈ uniqueFirst l ↔ b ∈ l := by
  rw [uniqueFirst, mem_uniqueFirstAux]
  simp

/-- Finding a key in a name-to-value zip: when some row of `part` carries the
requested name, `find?` returns the pair at the first such position, whose value is
the entry of `vals` at that position. -/
theorem zip_find_of_mem {V : Type} (part : List Obs) :
    ∀ (vals : List V) (n : Nat), part.length = vals.length →
      (∃ s ∈ part, s.name = n) →
      ∃ v, vals[part.findIdx (fun s => decide (s.name = n))]? = some v ∧
        ((part.map (fun r => r.name)).zip vals).find?
            (fun kv => decide (kv.1 = n)) = some (n, v) := by
  induction part with
  | nil =>
    intro vals n _ hex
    simp at hex
  | cons s pt ih =>
    intro vals n hlen hex
    cases vals with
    | nil => simp at hlen
    | cons v vt =>
      by_cases hs : s.name = n
      · refine ⟨v, ?_, ?_⟩
        · rw [List.findIdx_cons]
          simp [hs]
        · rw [List.map_cons, List.zip_cons_cons]
          rw [List.find?_cons_of_pos _ (by simp [hs])]
          simp [hs]
      · have hex' : ∃ s' ∈ pt, s'.name = n := by
          rcases hex with ⟨s', hs', hn⟩
          rcases List.mem_cons.mp hs' with rfl | hmem
          · exact absurd hn hs
          · exact ⟨s', hmem, hn⟩
        obtain ⟨v', hv', hf'⟩ :=
          ih vt n (by simpa using hlen) hex'
        refine ⟨v', ?_, ?_⟩
        · rw [List.findIdx_cons]
          have hdec : decide (s.name = n) = false := by simp [hs]
          rw [hdec]
          simpa using hv'
        · rw [List.map_cons, List.zip_cons_cons]
          rw [List.find?_cons_of_neg _ (by simp [hs])]
          exact hf'

/-- The group of a row with annotation value `a` is that value's subset. -/
theorem groupOf_eq_subset (adata : AData) (r : Obs) (a : Nat)
    (h : r.annot = some a) : groupOf adata r = groupSubset adata a := by
  unfold groupOf groupSubset
  simp [h]

/-- Scanning the concatenated per-group frames for a retained row's obs name finds
exactly the value computed for that row within its own group, provided names are
unique across the dataset, the row's group value is listed, and the per-group
embedding is length-preserving. -/
theorem hierTable_find {V : Type} (adata : AData) (f : AData → List V)
    (hname : ∀ s ∈ adata, ∀ t ∈ adata, s.name = t.name → s = t)
    (hf : ∀ l, (f l).length = l.length)
    (r : Obs) (hr : r ∈ adata) (a : Nat) (hra : r.annot = some a)
    (gs : List Nat) (hmem : a ∈ gs) :
    ∃ v, valueInGroup f adata r = some v ∧
      (gs.flatMap (fun b => ((groupSubset adata b).map (fun s => s.name)).zip
          (f (groupSubset adata b)))).find?
        (fun kv => decide (kv.1 = r.name)) = some (r.name, v) := by
  induction gs with
  | nil => simp at hmem
  | cons b gt ih =>
    rw [List.flatMap_cons, List.find?_append]
    by_cases hba : b = a
    · subst hba
      obtain ⟨v, hv, hfind⟩ :=
        zip_find_of_mem (groupSubset adata b) (f (groupSubset adata b)) r.name
          ((hf _).symm) ⟨r, List.mem_filter.mpr ⟨hr, by simp [hra]⟩, rfl⟩
      refine ⟨v, ?_, ?_⟩
      · rw [valueInGroup, groupOf_eq_subset adata r b hra]
        exact hv
      · rw [hfind]
        rfl
    · have hnone : (((groupSubset adata b).map (fun s => s.name)).zip
          (f (groupSubset adata b))).find? (fun kv => decide (kv.1 = r.name)) = none := by
        rw [List.find?_eq_none]
        rintro ⟨m, v⟩ hkv hpm
        have hm : m ∈ (groupSubset adata b).map (fun s => s.name) :=
          (List.of_mem_zip hkv).1
        obtain ⟨s, hsmem, hsname⟩ := List.mem_map.mp hm
        have hsdata : s ∈ adata := (List.mem_filter.mp hsmem).1
        have hsannot : s.annot = some b := by
          have := (List.mem_filter.mp hsmem).2
          simpa using this
        have hmn : m = r.name := by simpa using hpm
        have : s = r := hname s hsdata r hr (hsname.trans hmn)
        rw [this, hra] at hsannot
        exact hba (Option.some.inj hsannot).symm
      rw [hnone]
      have hmem' : a ∈ gt := by
        rcases List.mem_cons.mp hmem with rfl | h
        · exact absurd rfl hba
        · exact h
      obtain ⟨v, hv, hfind⟩ := ih hmem'
      exact ⟨v, hv, by rw [hfind]; rfl⟩

/-- C1: in hierarchical mode, for a dataset whose retained groups sum to `N` rows
(every retained row carries a non-null annotation and names are unique), the
concatenated per-group frames reindexed to the dataset's original row order
(`.loc[adata.obs_names]`, lines 196-197) form a matrix with exactly `N` rows, the
row at each position being precisely the value computed for that row within its
own annotation group. -/
theorem C1_hier_reassembly {V : Type} (adata : AData) (f : AData → List V)
    (h1 : ∀ r ∈ adata, r.annot.isSome)
    (h2 : (adata.map (fun r => r.name)).Nodup)
    (hf : ∀ l, (f l).length = l.length) :
    (locReindex (hierTable adata f) (adata.map (fun r => r.name))).length =
        adata.length ∧
      ∀ i, (hi : i < adata.length) →
        ∃ v, valueInGroup f adata (adata.get ⟨i, hi⟩) = some v ∧
          (locReindex (hierTable adata f) (adata.map (fun r => r.name)))[i]? =
            some (some v) := by
  constructor
  · simp [locReindex]
  · intro i hi
    have hrmem : adata.get ⟨i, hi⟩ ∈ adata := adata.get_mem i hi
    obtain ⟨a, hra⟩ := Option.isSome_iff_exists.mp (h1 _ hrmem)
    have hags : a ∈ uniqueFirst (annotValues adata) := by
      rw [mem_uniqueFirst]
      exact List.mem_filterMap.mpr ⟨adata.get ⟨i, hi⟩, hrmem, hra⟩
    obtain ⟨v, hv, hfind⟩ :=
      hierTable_find adata f (List.inj_on_of_nodup_map h2) hf
        (adata.get ⟨i, hi⟩) hrmem a hra (uniqueFirst (annotValues adata)) hags
    refine ⟨v, hv, ?_⟩
    have hname_i : (adata.map (fun r => r.name))[i]? =
        some (adata.get ⟨i, hi⟩).name := by
      rw [List.getElem?_map]
      rw [List.getElem?_eq_getElem hi]
      rfl
    rw [locReindex, List.getElem?_map, hname_i]
    have : hierTable adata f =
        (uniqueFirst (annotValues adata)).flatMap
          (fun b => ((groupSubset adata b).map (fun s => s.name)).zip
            (f (groupSubset adata b))) := rfl
    rw [Option.map_some']
    rw [this, hfind]
    rfl

/-- C1 witness: three rows in two interleaved annotation groups, with the
per-group embedding listing each row's name. -/
theorem C1_hier_reassembly_witness :
    (locReindex (hierTable [⟨5, some 1⟩, ⟨6, some 2⟩, ⟨7, some 1⟩]
          (fun l => l.map (fun s => s.name)))
        (([⟨5, some 1⟩, ⟨6, some 2⟩, ⟨7, some 1⟩] : AData).map (fun r => r.name))).length =
        ([⟨5, some 1⟩, ⟨6, some 2⟩, ⟨7, some 1⟩] : AData).length ∧
      ∀ i, (hi : i < ([⟨5, some 1⟩, ⟨6, some 2⟩, ⟨7, some 1⟩] : AData).length) →
        ∃ v, valueInGroup (fun l => l.map (fun s => s.name))
              [⟨5, some 1⟩, ⟨6, some 2⟩, ⟨7, some 1⟩]
              (([⟨5, some 1⟩, ⟨6, some 2⟩, ⟨7, some 1⟩] : AData).get ⟨i, hi⟩) = some v ∧
          (locReindex (hierTable [⟨5, some 1⟩, ⟨6, some 2⟩, ⟨7, some 1⟩]
              (fun l => l.map (fun s => s.name)))
            (([⟨5, some 1⟩, ⟨6, some 2⟩, ⟨7, some 1⟩] : AData).map (fun r => r.name)))[i]? =
            some (some v) :=
  C1_hier_reassembly [⟨5, some 1⟩, ⟨6, some 2⟩, ⟨7, some 1⟩]
    (fun l => l.map (fun s => s.name)) (by decide) (by decide)
    (fun l => by simp)

end GsMap
